import Mathlib

/-!
Verification development for the Docs OS repository
(`scripts/generate-project-docs.mjs` and the Drive sync watcher script).

The JavaScript pipeline is shallowly embedded: strings are Lean `String`s
(character lists underneath), every JS string operation used by the scripts
(`toLowerCase`, `includes`, `split`, `extname`, regex replaces, `join`,
template literals) is modelled by a structurally recursive Lean function on
`List Char`, and each pipeline step (`classifyFiles`, `generateMetadata`,
`generateMDXPages`, the watcher's `checkForChanges` / `runSyncCycle`) becomes
a pure Lean function.  Calls to `new Date()` are threaded through as explicit
`now` / `today` string parameters.  JavaScript `toLowerCase`/`toUpperCase`
are modelled on their ASCII fragment (`Char.toLower`/`Char.toUpper`), which
covers every string the scripts treat specially.
-/

namespace DocsOS

/-! ### JS string primitives -/

/-- Model of `String.prototype.toLowerCase` (ASCII fragment). -/
def jsToLower (s : String) : String :=
  String.mk (s.toList.map Char.toLower)

/-- Model of the JS idiom `w.charAt(0).toUpperCase() + w.slice(1)` on a
character list (ASCII fragment). -/
def capitalizeL : List Char → List Char
  | [] => []
  | c :: cs => Char.toUpper c :: cs

/-- Boolean test that the first list is a prefix of the second. -/
def isPrefixOfL : List Char → List Char → Bool
  | [], _ => true
  | _ :: _, [] => false
  | a :: as, b :: bs => a == b && isPrefixOfL as bs

/-- Boolean test that the first list occurs as a contiguous substring of the
second; model of `String.prototype.includes` at the character-list level. -/
def isInfixOfL (pat : List Char) : List Char → Bool
  | [] => isPrefixOfL pat []
  | b :: bs => isPrefixOfL pat (b :: bs) || isInfixOfL pat bs

/-- Model of `s.includes(pat)` for JS strings. -/
def jsIncludes (s pat : String) : Bool :=
  isInfixOfL pat.toList s.toList

/-- Split a character list around its last dot: returns
`some (before, after)` where `before ++ '.' :: after` is the input and
`after` contains no dot, or `none` when the list has no dot. -/
def splitLastDot : List Char → Option (List Char × List Char)
  | [] => none
  | c :: cs =>
    match splitLastDot cs with
    | some (b, a) => some (c :: b, a)
    | none => if c = '.' then some ([], cs) else none

/-- Model of Node's `path.extname` for names without path separators:
the substring from the last `.` to the end, except that a name whose only
dot is a leading dot (a dotfile such as `.gitignore`) and the name `..`
have no extension. -/
def jsExtname (s : String) : String :=
  match splitLastDot s.toList with
  | none => ""
  | some (before, after) =>
    if before = [] then ""
    else if s.toList = ['.', '.'] then ""
    else String.mk ('.' :: after)

/-- Model of `Array.prototype.join(sep)` / the `.join('\n')` calls in the
page templates. -/
def joinSep (sep : String) : List String → String
  | [] => ""
  | [x] => x
  | x :: xs => x ++ sep ++ joinSep sep xs

/-- Split a character list on a single separator character, with an
accumulator holding the reversed current segment; model of
`String.prototype.split(sep)` for a one-character separator. -/
def splitCharAux (sep : Char) (acc : List Char) : List Char → List (List Char)
  | [] => [acc.reverse]
  | c :: cs =>
    if c == sep then acc.reverse :: splitCharAux sep [] cs
    else splitCharAux sep (c :: acc) cs

/-- Model of `now.toISOString().split('T')[0]`, the date part of an ISO
timestamp string. -/
def isoDatePart (now : String) : String :=
  String.mk (now.toList.takeWhile (fun c => c != 'T'))

/-! ### Classifier (`classifyFiles`, script lines 83-112) -/

/-- Extension-to-type table of `classifyFiles` (lines 90-99), applied to the
already lowercased extension. -/
def typeForExt (ext : String) : String :=
  if [".md", ".mdx", ".txt"].contains ext then "markdown"
  else if [".docx", ".doc"].contains ext then "document"
  else if [".xlsx", ".xls", ".csv"].contains ext then "spreadsheet"
  else if [".pptx", ".ppt"].contains ext then "presentation"
  else if ext == ".pdf" then "pdf"
  else if [".png", ".jpg", ".jpeg", ".svg", ".gif"].contains ext then "image"
  else "unknown"

/-- Type assigned to a filename: `path.extname(file).toLowerCase()` fed into
the extension table. -/
def fileType (file : String) : String :=
  typeForExt (jsToLower (jsExtname file))

/-- Category heuristic of `classifyFiles` (lines 101-108): substring tests on
the lowercased filename, first match wins, default `appendix`. -/
def fileCategory (file : String) : String :=
  let n := jsToLower file
  if jsIncludes n "exec" || jsIncludes n "summary" then "overview"
  else if jsIncludes n "financial" || jsIncludes n "revenue" then "financials"
  else if jsIncludes n "team" || jsIncludes n "org" then "team"
  else if jsIncludes n "product" || jsIncludes n "roadmap" then "product"
  else if jsIncludes n "market" || jsIncludes n "competitor" then "market"
  else if jsIncludes n "legal" || jsIncludes n "term" then "legal"
  else if jsIncludes n "deck" || jsIncludes n "pitch" then "pitch"
  else "appendix"

/-- One record of the classifier output: `{ file, ext, type, category }`. -/
structure ClassifiedFile where
  file : String
  ext : String
  type : String
  category : String
deriving DecidableEq, Repr

/-- Classification of a single directory entry (lines 89-110). -/
def classifyFile (file : String) : ClassifiedFile :=
  let ext := jsToLower (jsExtname file)
  { file := file, ext := ext, type := typeForExt ext, category := fileCategory file }

/-- Model of `classifyFiles`: the directory listing is `none` when the raw
directory does not exist (the `fs.existsSync` guard on line 86) and
`some files` otherwise. -/
def classifyFiles : Option (List String) → List ClassifiedFile
  | none => []
  | some files => files.map classifyFile

/-! ### Drive id extraction (`DRIVE_ID`, script lines 30-32) -/

/-- Characters of `l` strictly before the first occurrence of `pat`
(all of `l` when `pat` does not occur). -/
def beforeFirst (pat : List Char) : List Char → List Char
  | [] => []
  | c :: cs => if isPrefixOfL pat (c :: cs) then [] else c :: beforeFirst pat cs

/-- Characters of `l` strictly after the first occurrence of `pat`
(`[]` when `pat` does not occur). -/
def afterFirst (pat : List Char) : List Char → List Char
  | [] => []
  | c :: cs =>
    if isPrefixOfL pat (c :: cs) then (c :: cs).drop pat.length
    else afterFirst pat cs

/-- Model of `String.prototype.split` with a non-empty string separator
`p :: ps`; `acc` holds the reversed current segment. -/
def splitOnL (p : Char) (ps : List Char) : List Char → List Char → List (List Char)
  | [], acc => [acc.reverse]
  | c :: cs, acc =>
    if isPrefixOfL (p :: ps) (c :: cs) then
      acc.reverse :: splitOnL p ps (cs.drop ps.length) []
    else
      splitOnL p ps cs (c :: acc)
termination_by l _ => l.length
decreasing_by
  all_goals simp [List.length_drop]
  all_goals omega

/-- Model of the `DRIVE_ID` computation:
`args.drive.includes('folders/') ? args.drive.split('folders/')[1].split('?')[0] : args.drive`. -/
def extractDriveId (drive : String) : String :=
  if jsIncludes drive "folders/" then
    String.mk (((splitOnL 'f' "olders/".toList drive.toList []).getD 1 []).takeWhile
      (fun c => c != '?'))
  else drive

/-! ### Navigation slug derivation (`generateMDXPages`, lines 181-182) -/

/-- Model of the regex replace `file.replace(/\.[^\x2f.]+$/, '')`: removes a
final `.xxx` whose `xxx` part is non-empty and free of dots and slashes. -/
def navStrip (l : List Char) : List Char :=
  match splitLastDot l with
  | none => l
  | some (before, after) =>
    if after.length != 0 && after.all (fun c => c != '.' && c != '/') then before
    else l

/-- Character class `[a-z0-9]` of the slug-normalizing regex. -/
def isLowerAlnum (c : Char) : Bool :=
  ('a' ≤ c && c ≤ 'z') || ('0' ≤ c && c ≤ '9')

/-- Model of the regex replace `\x2f[^a-z0-9]+\x2fg` by `'-'`: each maximal
run of characters outside `[a-z0-9]` becomes one hyphen.  The flag records
whether the previous character was inside such a run. -/
def hyphenizeAux (inRun : Bool) : List Char → List Char
  | [] => []
  | c :: cs =>
    if isLowerAlnum c then c :: hyphenizeAux false cs
    else if inRun then hyphenizeAux true cs
    else '-' :: hyphenizeAux true cs

/-- Navigation key of a file (line 181): strip the extension, lowercase,
collapse non-alphanumeric runs to hyphens. -/
def navKey (file : String) : String :=
  String.mk (hyphenizeAux false ((navStrip file.toList).map Char.toLower))

/-- Navigation display title of a file (line 182): the extension-stripped
filename. -/
def navName (file : String) : String :=
  String.mk (navStrip file.toList)

/-- Eligibility filter for navigation entries (line 179). -/
def navEligible (f : ClassifiedFile) : Bool :=
  f.type == "markdown" || f.type == "document"

/-! ### Metadata (`generateMetadata`, lines 115-137) -/

/-- First-occurrence deduplication, the model of `[...new Set(xs)]`
(JS `Set` iterates in insertion order, so the first occurrence of each
element is kept, in order). -/
def dedupFirst (seen : List String) : List String → List String
  | [] => []
  | x :: xs => if x ∈ seen then dedupFirst seen xs else x :: dedupFirst (x :: seen) xs

/-- Display-name derivation (line 119): split the slug on hyphens,
capitalize each segment, join with spaces. -/
def displayName (slug : String) : String :=
  joinSep " " ((splitCharAux '-' [] slug.toList).map (fun w => String.mk (capitalizeL w)))

/-- The `metadata.json` record (tags are always `[]` in the script and the
two `new Date().toISOString()` calls are modelled by the single `now`
argument). -/
structure Metadata where
  slug : String
  name : String
  visibility : String
  status : String
  tags : List String
  createdAt : String
  updatedAt : String
  version : String
  fileCount : Nat
  categories : List String
  driveFolder : String
deriving DecidableEq, Repr

/-- Model of `generateMetadata` (lines 115-137). -/
def generateMetadata (slug visibility driveId now : String)
    (classified : List ClassifiedFile) : Metadata :=
  { slug := slug
    name := displayName slug
    visibility := visibility
    status := "active"
    tags := []
    createdAt := now
    updatedAt := now
    version := "1.0"
    fileCount := classified.length
    categories := dedupFirst [] (classified.map (fun f => f.category))
    driveFolder := driveId }

/-! ### Page generation (`generateMDXPages`, lines 140-210, and
`generateChangelog`, lines 213-230)

Each template literal is a concatenation of fixed text and interpolated
values; the definitions below split each template at the interpolated table
join, which is exactly how the source string is built. -/

/-- One row of the index-page document table (line 165). -/
def indexRow (f : ClassifiedFile) : String :=
  "| " ++ f.file ++ " | " ++ f.category ++ " | " ++ f.type ++ " |"

/-- One row of the appendix download table (line 202). -/
def appendixRow (slug : String) (f : ClassifiedFile) : String :=
  "| " ++ f.file ++ " | " ++ f.type ++ " | " ++ f.category ++
    " | [Download](/projects/" ++ slug ++ "/assets/" ++ f.file ++ ") |"

/-- One generated navigation line (line 183). -/
def navEntryLine (f : ClassifiedFile) : String :=
  "  '" ++ navKey f.file ++ "': '" ++ navName f.file ++ "',"

/-- Index-page template text before the interpolated table rows. -/
def indexHeader (m : Metadata) : String :=
  "---\ntitle: \"" ++ m.name ++ " — Data Room\"\n---\n\n# " ++ m.name ++
  "\n\nimport \x7b MetricCards \x7d from '../../../components/MetricCards'\n\n<MetricCards metrics=\x7b[\n  \x7b label: \"Status\", value: \"" ++
  m.status ++ "\" \x7d,\n  \x7b label: \"Visibility\", value: \"" ++
  m.visibility ++ "\" \x7d,\n  \x7b label: \"Documents\", value: \"" ++
  toString m.fileCount ++ "\" \x7d,\n  \x7b label: \"Version\", value: \"v" ++
  m.version ++
  "\" \x7d\n]\x7d />\n\n---\n\n## Documents\n\n| Document | Category | Type |\n|----------|----------|------|\n"

/-- Index-page template text after the interpolated table rows. -/
def indexFooter (driveId today : String) : String :=
  "\n\n---\n\n> This data room was auto-generated by Docs OS on " ++ today ++
  ".\n> Source: Google Drive folder `" ++ driveId ++ "`\n"

/-- The generated `index.mdx` content (lines 144-171). -/
def indexMdxOf (m : Metadata) (classified : List ClassifiedFile)
    (driveId today : String) : String :=
  indexHeader m ++ joinSep "\n" (classified.map indexRow) ++ indexFooter driveId today

/-- The generated `_meta.ts` navigation manifest content (lines 176-188). -/
def metaTsOf (classified : List ClassifiedFile) : String :=
  "export default \x7b\n  index: 'Overview',\n" ++
  joinSep "\n" ((classified.filter navEligible).map navEntryLine) ++
  "\n  appendix: 'Downloads & Appendix',\n\x7d\n"

/-- Appendix-page template text before the interpolated table rows. -/
def appendixHeader (m : Metadata) : String :=
  "---\ntitle: Downloads & Appendix\n---\n\n# Downloads & Appendix\n\nAll source files from the " ++
  m.name ++
  " data room.\n\n| File | Type | Category | Download |\n|------|------|----------|----------|\n"

/-- Appendix-page template text after the interpolated table rows. -/
def appendixFooter (today : String) : String :=
  "\n\n---\n\n*Last synced: " ++ today ++ "*\n"

/-- The generated `appendix.mdx` content (lines 192-207). -/
def appendixMdxOf (m : Metadata) (classified : List ClassifiedFile)
    (slug today : String) : String :=
  appendixHeader m ++ joinSep "\n" (classified.map (appendixRow slug)) ++
    appendixFooter today

/-- The generated `changelog.mdx` content (lines 216-227). -/
def changelogOf (m : Metadata) (today : String) : String :=
  "---\ntitle: Changelog\n---\n\n# Changelog — " ++ m.name ++ "\n\n## v" ++
  m.version ++ " — " ++ today ++
  "\n\n- Initial data room generation\n- " ++ toString m.fileCount ++
  " documents imported\n- Categories: " ++ joinSep ", " m.categories ++ "\n"

/-- The four generated site-content documents. -/
structure GeneratedPages where
  indexMdx : String
  metaTs : String
  appendixMdx : String
  changelogMdx : String
deriving DecidableEq, Repr

/-- Model of `generateMDXPages` plus `generateChangelog`. -/
def generateMDXPages (slug driveId today : String) (m : Metadata)
    (classified : List ClassifiedFile) : GeneratedPages :=
  { indexMdx := indexMdxOf m classified driveId today
    metaTs := metaTsOf classified
    appendixMdx := appendixMdxOf m classified slug today
    changelogMdx := changelogOf m today }

/-- Everything one run of the generator script computes from its inputs. -/
structure RunOutput where
  classified : List ClassifiedFile
  metadata : Metadata
  pages : GeneratedPages
deriving DecidableEq, Repr

/-- Model of the script's main sequence (lines 232-239): classify the raw
directory listing, derive metadata, generate the pages.  `listing` is
`none` when the raw directory does not exist; `now` stands for the ISO
timestamp of the run. -/
def runPipeline (slug visibility driveArg now : String)
    (listing : Option (List String)) : RunOutput :=
  let driveId := extractDriveId driveArg
  let c := classifyFiles listing
  let m := generateMetadata slug visibility driveId now c
  { classified := c
    metadata := m
    pages := generateMDXPages slug driveId (isoDatePart now) m c }

/-! ### Sync watcher (`drive-sync.mjs`) -/

/-- A raw file as the watcher sees it: name and `fs.statSync(...).mtimeMs`
(modelled as an integer number of milliseconds). -/
structure FileStat where
  name : String
  mtimeMs : Int
deriving DecidableEq, Repr

/-- A project as assembled by `getProjectsWithDrive`: directory slug,
recorded `updatedAt` (as milliseconds, the value of
`new Date(project.updatedAt).getTime()`), the optional `driveFolder`
metadata field, and the raw directory contents (`none` when the raw
directory does not exist). -/
structure Project where
  slug : String
  updatedAt : Int
  driveFolder : Option String
  rawDir : Option (List FileStat)
deriving DecidableEq, Repr

/-- JS truthiness of `p.driveFolder` (the filter on line 34 of the watcher):
a missing field and the empty string are both falsy. -/
def hasDrive (p : Project) : Bool :=
  match p.driveFolder with
  | none => false
  | some s => s != ""

/-- Model of `checkForChanges` (watcher lines 37-52): false when the raw
directory does not exist, otherwise true exactly when some raw file has a
modification time strictly newer than the recorded `updatedAt`. -/
def checkForChanges (p : Project) : Bool :=
  match p.rawDir with
  | none => false
  | some files => files.any (fun f => f.mtimeMs > p.updatedAt)

/-- Model of one watcher tick (`runSyncCycle`, lines 72-85): the projects
with a truthy Drive reference are scanned in order and `syncProject` is
invoked for each changed one; the result lists the slugs of the sync
invocations of this tick, in order. -/
def runSyncCycle (projects : List Project) : List String :=
  ((projects.filter hasDrive).filter checkForChanges).map Project.slug

/-! ### Spec-side definitions

The following definitions transcribe the specification's own wording (not
the source code); the theorems below compare the code-derived definitions
against them. -/

/-- Modelled from the spec: the extension-to-type table of section 4.1,
as an ordered list of (extension group, type) pairs. -/
def specTypeGroups : List (List String × String) :=
  [([".md", ".mdx", ".txt"], "markdown"),
   ([".docx", ".doc"], "document"),
   ([".xlsx", ".xls", ".csv"], "spreadsheet"),
   ([".pptx", ".ppt"], "presentation"),
   ([".pdf"], "pdf"),
   ([".png", ".jpg", ".jpeg", ".svg", ".gif"], "image")]

/-- Modelled from the spec: first group containing the extension wins,
anything else is `unknown`. -/
def lookupTypeSpec (ext : String) : List (List String × String) → String
  | [] => "unknown"
  | (exts, t) :: rest => if exts.contains ext then t else lookupTypeSpec ext rest

/-- Modelled from the spec: the ordered category keyword sets of
section 4.1. -/
def specCategoryRules : List (List String × String) :=
  [(["exec", "summary"], "overview"),
   (["financial", "revenue"], "financials"),
   (["team", "org"], "team"),
   (["product", "roadmap"], "product"),
   (["market", "competitor"], "market"),
   (["legal", "term"], "legal"),
   (["deck", "pitch"], "pitch")]

/-- Modelled from the spec: test the (already lowercased) filename against
the keyword sets in order; the first matching rule wins and the default is
`appendix`. -/
def firstRuleSpec (n : String) : List (List String × String) → String
  | [] => "appendix"
  | (kws, cat) :: rest =>
    if kws.any (fun k => jsIncludes n k) then cat else firstRuleSpec n rest

/-- Navigation entry of one file, as a (page-slug, display-title) pair. -/
def navEntryPair (f : ClassifiedFile) : String × String :=
  (navKey f.file, navName f.file)

/-- Rendering of a quoted-key navigation line. -/
def quotedNavLine (e : String × String) : String :=
  "  '" ++ e.1 ++ "': '" ++ e.2 ++ "',"

/-- Modelled from the spec: the navigation manifest as an ordered mapping —
a fixed `Overview` entry first, one entry per markdown/document file in
file-sequence order, and a fixed trailing `Downloads & Appendix` entry. -/
def navManifestSpec (classified : List ClassifiedFile) : List (String × String) :=
  ("index", "Overview") ::
    (classified.filter navEligible).map navEntryPair ++
    [("appendix", "Downloads & Appendix")]

/-- Renders the tail of a navigation manifest: quoted middle entries joined
by newlines, then the bare-keyed final entry and the closing brace. -/
def renderRest : List (String × String) → String
  | [] => "\x7d\n"
  | [e] => "\n  " ++ e.1 ++ ": '" ++ e.2 ++ "',\n\x7d\n"
  | e :: e2 :: rest =>
    quotedNavLine e ++ (if rest.isEmpty then "" else "\n") ++ renderRest (e2 :: rest)

/-- Renders an ordered manifest into `_meta.ts` text: bare-keyed first
entry, quoted middle entries, bare-keyed final entry. -/
def renderNavManifest : List (String × String) → String
  | [] => "export default \x7b\n\x7d\n"
  | e :: rest => "export default \x7b\n  " ++ e.1 ++ ": '" ++ e.2 ++ "',\n" ++ renderRest rest

/-- Modelled from the claim's wording for the drive-id extraction: the
portion after the first `folders/`, truncated at the first `?`. -/
def driveIdClaimed (drive : String) : String :=
  if jsIncludes drive "folders/" then
    String.mk ((afterFirst "folders/".toList drive.toList).takeWhile (fun c => c != '?'))
  else drive

/-- Modelled from the amended claim: the segment between the first
`folders/` and the next occurrence of `folders/` (to the end when there is
none), truncated at the first `?`. -/
def driveIdAmended (drive : String) : String :=
  if jsIncludes drive "folders/" then
    String.mk ((beforeFirst "folders/".toList
      (afterFirst "folders/".toList drive.toList)).takeWhile (fun c => c != '?'))
  else drive

/-! ### Concrete inputs used by witnesses -/

/-- A project whose raw directory holds a file strictly newer than its
recorded `updatedAt`. -/
def demoChanged : Project :=
  { slug := "alpha", updatedAt := 100, driveFolder := some "D1",
    rawDir := some [{ name := "Pitch.pdf", mtimeMs := 200 }] }

/-- A project whose raw files are all older than its recorded `updatedAt`. -/
def demoUnchanged : Project :=
  { slug := "beta", updatedAt := 100, driveFolder := some "D2",
    rawDir := some [{ name := "notes.md", mtimeMs := 50 }] }

/-- A two-project watcher state with distinct slugs. -/
def demoProjects : List Project :=
  [demoChanged, demoUnchanged]

/-! ### Helper lemmas -/

theorem isPrefixOfL_map (f : Char → Char) :
    ∀ (p l : List Char), isPrefixOfL p l = true →
      isPrefixOfL (p.map f) (l.map f) = true := by
  intro p
  induction p with
  | nil => intro l _; rfl
  | cons a as ih =>
    intro l h
    cases l with
    | nil => simp [isPrefixOfL] at h
    | cons b bs =>
      simp only [isPrefixOfL, Bool.and_eq_true, beq_iff_eq] at h
      simp only [List.map_cons, isPrefixOfL, Bool.and_eq_true, beq_iff_eq]
      exact ⟨by rw [h.1], ih bs h.2⟩

theorem isInfixOfL_map (f : Char → Char) :
    ∀ (p l : List Char), isInfixOfL p l = true →
      isInfixOfL (p.map f) (l.map f) = true := by
  intro p l
  induction l with
  | nil =>
    intro h
    cases p with
    | nil => rfl
    | cons a as => simp [isInfixOfL, isPrefixOfL] at h
  | cons b bs ih =>
    intro h
    simp only [isInfixOfL, Bool.or_eq_true] at h
    simp only [List.map_cons, isInfixOfL, Bool.or_eq_true]
    rcases h with h | h
    · exact Or.inl (isPrefixOfL_map f p (b :: bs) h)
    · exact Or.inr (ih h)

theorem typeForExt_eq_spec (e : String) :
    typeForExt e = lookupTypeSpec e specTypeGroups := by
  simp [typeForExt, lookupTypeSpec, specTypeGroups]

/-! ### Claim theorems -/

/-- C1: category classification tests the lowercased filename against the
keyword sets in the fixed priority order, first match wins, default
`appendix`; in particular a filename containing both `exec` and
`financial` is classified `overview`. -/
theorem category_priority_order :
    (∀ file : String,
      fileCategory file = firstRuleSpec (jsToLower file) specCategoryRules) ∧
    (∀ file : String, jsIncludes file "exec" = true →
      jsIncludes file "financial" = true → fileCategory file = "overview") := by
  constructor
  · intro file
    simp [fileCategory, firstRuleSpec, specCategoryRules]
  · intro file hexec _hfin
    have h2 : isInfixOfL ("exec".toList.map Char.toLower)
        (file.toList.map Char.toLower) = true :=
      isInfixOfL_map Char.toLower _ _ hexec
    have hpat : ("exec".toList.map Char.toLower) = "exec".toList := by decide
    rw [hpat] at h2
    have h3 : jsIncludes (jsToLower file) "exec" = true := h2
    simp [fileCategory, h3]

/-- C1 witness: a concrete filename containing both `exec` and `financial`
is classified `overview`. -/
theorem category_priority_order_witness :
    fileCategory "exec-financial-model.pdf" = "overview" :=
  category_priority_order.2 "exec-financial-model.pdf" (by decide) (by decide)

/-- C2: the assigned file type is determined case-insensitively by the
extension according to the fixed extension-group table, with `unknown` for
any other extension. -/
theorem fileType_extension_table :
    (∀ file : String,
      fileType file = lookupTypeSpec (jsToLower (jsExtname file)) specTypeGroups) ∧
    fileType "Slides.PPTX" = "presentation" ∧
    fileType "Report.PDF" = "pdf" ∧
    fileType "notes.tXt" = "markdown" ∧
    fileType "archive.zip" = "unknown" :=
  ⟨fun _ => typeForExt_eq_spec _, by decide, by decide, by decide, by decide⟩

/-- C3: a missing raw-files directory yields an empty classification
sequence, indistinguishable from an existing directory with zero files. -/
theorem classify_missing_dir :
    classifyFiles none = [] ∧ classifyFiles none = classifyFiles (some []) :=
  ⟨rfl, rfl⟩

/-- C5: two generation runs over the same directory listing with the same
slug and visibility produce identical classification results and identical
index/appendix table rows and navigation manifest, whatever their
timestamps; the row lists are embedded verbatim in the generated pages. -/
theorem run_content_determinism :
    ∀ (slug visibility driveArg nowA nowB : String) (listing : Option (List String)),
      (runPipeline slug visibility driveArg nowA listing).classified =
        (runPipeline slug visibility driveArg nowB listing).classified ∧
      (runPipeline slug visibility driveArg nowA listing).classified.map indexRow =
        (runPipeline slug visibility driveArg nowB listing).classified.map indexRow ∧
      (runPipeline slug visibility driveArg nowA listing).classified.map (appendixRow slug) =
        (runPipeline slug visibility driveArg nowB listing).classified.map (appendixRow slug) ∧
      (runPipeline slug visibility driveArg nowA listing).pages.metaTs =
        (runPipeline slug visibility driveArg nowB listing).pages.metaTs ∧
      (∃ a b, (runPipeline slug visibility driveArg nowA listing).pages.indexMdx =
        a ++ joinSep "\n"
          ((runPipeline slug visibility driveArg nowA listing).classified.map indexRow) ++ b) ∧
      (∃ a b, (runPipeline slug visibility driveArg nowA listing).pages.appendixMdx =
        a ++ joinSep "\n"
          ((runPipeline slug visibility driveArg nowA listing).classified.map
            (appendixRow slug)) ++ b) := by
  intro slug visibility driveArg nowA nowB listing
  exact ⟨rfl, rfl, rfl, rfl, ⟨_, _, rfl⟩, ⟨_, _, rfl⟩⟩

/-- C9: every generation run sets both `createdAt` and `updatedAt` to the
current time; the emitted `createdAt` depends on nothing but the run's
clock (the generator reads no previously stored metadata). -/
theorem metadata_timestamps_recomputed :
    ∀ (slug visibility driveId now : String) (classified : List ClassifiedFile),
      (generateMetadata slug visibility driveId now classified).createdAt = now ∧
      (generateMetadata slug visibility driveId now classified).updatedAt = now :=
  fun _ _ _ _ _ => ⟨rfl, rfl⟩

/-- C10: the navigation page-slug derivation is not injective: the distinct
navigation-eligible files `Team Notes.md` (markdown) and `team_notes.docx`
(document) map to the same key, so a manifest holding both contains
duplicate keys. -/
theorem navKey_not_injective :
    "Team Notes.md" ≠ "team_notes.docx" ∧
    (classifyFile "Team Notes.md").type = "markdown" ∧
    (classifyFile "team_notes.docx").type = "document" ∧
    navKey "Team Notes.md" = navKey "team_notes.docx" ∧
    ¬ ((navManifestSpec
        [classifyFile "Team Notes.md", classifyFile "team_notes.docx"]).map
          Prod.fst).Nodup :=
  ⟨by decide, by decide, by decide, by decide, by decide⟩

theorem mem_dedupFirst (a : String) :
    ∀ (xs seen : List String), a ∈ dedupFirst seen xs ↔ a ∈ xs ∧ a ∉ seen := by
  intro xs
  induction xs with
  | nil => intro seen; simp [dedupFirst]
  | cons x xs ih =>
    intro seen
    simp only [dedupFirst]
    by_cases hx : x ∈ seen
    · rw [if_pos hx, ih]
      constructor
      · exact fun h => ⟨List.mem_cons_of_mem x h.1, h.2⟩
      · rintro ⟨hmem, hns⟩
        rcases List.mem_cons.mp hmem with rfl | hmem
        · exact absurd hx hns
        · exact ⟨hmem, hns⟩
    · rw [if_neg hx]
      constructor
      · intro h
        rcases List.mem_cons.mp h with rfl | h
        · exact ⟨List.mem_cons_self a xs, hx⟩
        · have h2 := (ih (x :: seen)).mp h
          exact ⟨List.mem_cons_of_mem x h2.1,
            fun hs => h2.2 (List.mem_cons_of_mem x hs)⟩
      · rintro ⟨hmem, hns⟩
        rcases List.mem_cons.mp hmem with rfl | hmem
        · exact List.mem_cons_self a _
        · by_cases hax : a = x
          · subst hax; exact List.mem_cons_self a _
          · refine List.mem_cons_of_mem x ((ih (x :: seen)).mpr ⟨hmem, ?_⟩)
            intro hs
            rcases List.mem_cons.mp hs with h | h
            · exact hax h
            · exact hns h

theorem nodup_dedupFirst : ∀ (xs seen : List String), (dedupFirst seen xs).Nodup := by
  intro xs
  induction xs with
  | nil => intro seen; simp [dedupFirst]
  | cons x xs ih =>
    intro seen
    simp only [dedupFirst]
    by_cases hx : x ∈ seen
    · rw [if_pos hx]; exact ih seen
    · rw [if_neg hx]
      refine List.nodup_cons.mpr ⟨?_, ih (x :: seen)⟩
      intro hmem
      exact ((mem_dedupFirst x xs (x :: seen)).mp hmem).2 (List.mem_cons_self x seen)

theorem sublist_dedupFirst :
    ∀ (xs seen : List String), List.Sublist (dedupFirst seen xs) xs := by
  intro xs
  induction xs with
  | nil => intro seen; simp [dedupFirst]
  | cons x xs ih =>
    intro seen
    simp only [dedupFirst]
    by_cases hx : x ∈ seen
    · rw [if_pos hx]; exact (ih seen).cons x
    · rw [if_neg hx]; exact (ih (x :: seen)).cons₂ x

/-- C6: the metadata record has `fileCount` equal to the length of the
classified sequence and `categories` equal to the distinct categories in
first-seen order (no duplicates, order-preserving sublist of the observed
category sequence), as on the concrete three-file example. -/
theorem metadata_fileCount_categories :
    (∀ (slug visibility driveId now : String) (classified : List ClassifiedFile),
      (generateMetadata slug visibility driveId now classified).fileCount =
        classified.length ∧
      (generateMetadata slug visibility driveId now classified).categories =
        dedupFirst [] (classified.map (fun f => f.category)) ∧
      (generateMetadata slug visibility driveId now classified).categories.Nodup ∧
      (∀ c, c ∈ (generateMetadata slug visibility driveId now classified).categories ↔
        c ∈ classified.map (fun f => f.category)) ∧
      List.Sublist (generateMetadata slug visibility driveId now classified).categories
        (classified.map (fun f => f.category))) ∧
    (generateMetadata "demo" "investor" "D" "NOW"
      (classifyFiles (some ["Executive-Summary.pdf", "Financial-Model.xlsx",
        "random-notes.txt"]))).fileCount = 3 ∧
    (generateMetadata "demo" "investor" "D" "NOW"
      (classifyFiles (some ["Executive-Summary.pdf", "Financial-Model.xlsx",
        "random-notes.txt"]))).categories = ["overview", "financials", "appendix"] := by
  refine ⟨?_, by decide, by decide⟩
  intro slug visibility driveId now classified
  refine ⟨rfl, rfl, nodup_dedupFirst _ _, ?_, sublist_dedupFirst _ _⟩
  intro c
  have hcat : (generateMetadata slug visibility driveId now classified).categories =
      dedupFirst [] (classified.map (fun f => f.category)) := rfl
  rw [hcat, mem_dedupFirst]
  exact ⟨fun h => h.1, fun h => ⟨h, List.not_mem_nil c⟩⟩

theorem renderRest_append_last (last : String × String) :
    ∀ (ms : List (String × String)),
      renderRest (ms ++ [last]) =
        joinSep "\n" (ms.map quotedNavLine) ++ renderRest [last] := by
  intro ms
  induction ms with
  | nil => exact (String.empty_append _).symm
  | cons m ms ih =>
    cases ms with
    | nil =>
      simp [renderRest, joinSep, String.append_empty, String.append_assoc]
    | cons m2 ms2 =>
      have hne : ((ms2 ++ [last]).isEmpty = false) := by
        cases ms2 <;> rfl
      simp only [List.cons_append, renderRest, List.append_eq] at ih ⊢
      rw [ih]
      simp [hne, joinSep, String.append_assoc]

/-- C7: the generated navigation manifest is the rendering of the ordered
mapping that starts with the fixed `Overview` entry, continues with one
(slug, stripped-name) entry per markdown/document file in file order, and
ends with the fixed `Downloads & Appendix` entry. -/
theorem nav_manifest_ordered_mapping (classified : List ClassifiedFile) :
    metaTsOf classified = renderNavManifest (navManifestSpec classified) := by
  have hr : renderNavManifest (navManifestSpec classified) =
      "export default \x7b\n  " ++ "index" ++ ": '" ++ "Overview" ++ "',\n" ++
        renderRest ((classified.filter navEligible).map navEntryPair ++
          [("appendix", "Downloads & Appendix")]) := rfl
  rw [hr, renderRest_append_last, List.map_map]
  have hline : ((classified.filter navEligible).map (quotedNavLine ∘ navEntryPair)) =
      (classified.filter navEligible).map navEntryLine := rfl
  rw [hline]
  have h1 : ("export default \x7b\n  " ++ "index" ++ ": '" ++ "Overview" ++ "',\n"
      : String) = "export default \x7b\n  index: 'Overview',\n" := by decide
  have h2 : (renderRest [("appendix", "Downloads & Appendix")] : String) =
      "\n  appendix: 'Downloads & Appendix',\n\x7d\n" := by decide
  rw [h1, h2]
  exact String.append_assoc _ _ _

theorem splitOnL_ne_nil (p : Char) (ps : List Char) :
    ∀ (l acc : List Char), splitOnL p ps l acc ≠ [] := by
  intro l
  induction l with
  | nil => intro acc; simp [splitOnL]
  | cons c cs ih =>
    intro acc
    rw [splitOnL]
    by_cases h : isPrefixOfL (p :: ps) (c :: cs) = true
    · simp [h]
    · simp only [h, if_false]
      exact ih (c :: acc)

theorem splitOnL_head (p : Char) (ps : List Char) :
    ∀ (l acc : List Char),
      (splitOnL p ps l acc).head? = some (acc.reverse ++ beforeFirst (p :: ps) l) := by
  intro l
  induction l with
  | nil => intro acc; simp [splitOnL, beforeFirst]
  | cons c cs ih =>
    intro acc
    rw [splitOnL]
    by_cases h : isPrefixOfL (p :: ps) (c :: cs) = true
    · simp [h, beforeFirst]
    · simp only [h, Bool.false_eq_true, if_false, beforeFirst]
      rw [ih (c :: acc)]
      simp [List.append_assoc]

theorem splitOnL_cons_of_occurs (p : Char) (ps : List Char) :
    ∀ (l acc : List Char), isInfixOfL (p :: ps) l = true →
      splitOnL p ps l acc =
        (acc.reverse ++ beforeFirst (p :: ps) l) ::
          splitOnL p ps (afterFirst (p :: ps) l) [] := by
  intro l
  induction l with
  | nil => intro acc h; simp [isInfixOfL, isPrefixOfL] at h
  | cons c cs ih =>
    intro acc h
    rw [splitOnL]
    by_cases hp : isPrefixOfL (p :: ps) (c :: cs) = true
    · simp [hp, beforeFirst, afterFirst]
    · have hinf : isInfixOfL (p :: ps) cs = true := by
        simp only [isInfixOfL, Bool.or_eq_true] at h
        rcases h with h | h
        · exact absurd h hp
        · exact h
      simp only [hp, Bool.false_eq_true, if_false, beforeFirst, afterFirst]
      rw [ih (c :: acc) hinf]
      simp [List.append_assoc]

theorem extractDriveId_eq_amended (drive : String) :
    extractDriveId drive = driveIdAmended drive := by
  unfold extractDriveId driveIdAmended
  by_cases h : jsIncludes drive "folders/" = true
  · rw [if_pos h, if_pos h]
    have hpat : "folders/".toList = 'f' :: "olders/".toList := by decide
    rw [hpat]
    have hinf : isInfixOfL ('f' :: "olders/".toList) drive.toList = true := by
      have h2 : isInfixOfL "folders/".toList drive.toList = true := h
      rw [hpat] at h2
      exact h2
    rw [splitOnL_cons_of_occurs 'f' "olders/".toList drive.toList [] hinf]
    have hh := splitOnL_head 'f' "olders/".toList
      (afterFirst ('f' :: "olders/".toList) drive.toList) []
    cases hsp : splitOnL 'f' "olders/".toList
        (afterFirst ('f' :: "olders/".toList) drive.toList) [] with
    | nil => exact absurd hsp (splitOnL_ne_nil _ _ _ _)
    | cons r rs =>
      rw [hsp] at hh
      simp only [List.head?, Option.some.injEq, List.reverse_nil,
        List.nil_append] at hh
      simp [hh]
  · rw [if_neg h, if_neg h]

/-- C8 (amended): when the argument contains `folders/`, the extracted id
is the segment between the first `folders/` and the next occurrence of
`folders/` (to the end of the string when there is none), truncated at the
first `?`; otherwise the argument is returned unchanged.  The claim's two
concrete examples hold. -/
theorem driveId_extraction :
    (∀ drive : String, extractDriveId drive = driveIdAmended drive) ∧
    extractDriveId "https://drive.google.com/drive/folders/ABC123?usp=sharing" =
      "ABC123" ∧
    extractDriveId "ABC123" = "ABC123" := by
  refine ⟨extractDriveId_eq_amended, ?_, ?_⟩
  · rw [extractDriveId_eq_amended]; decide
  · rw [extractDriveId_eq_amended]; decide

/-- C8 counterexample: on `folders/Afolders/B` the code extracts `A` (the
segment between the first and second `folders/`), not the whole remainder
`Afolders/B` demanded by the claim's description. -/
theorem driveId_extraction_counterexample :
    extractDriveId "folders/Afolders/B" ≠ driveIdClaimed "folders/Afolders/B" := by
  rw [extractDriveId_eq_amended]
  decide

theorem slug_count_filtered_zero (rest : List Project) (s : String)
    (h : s ∉ rest.map Project.slug) :
    (((rest.filter hasDrive).filter checkForChanges).map Project.slug).count s = 0 := by
  rw [List.count_eq_zero]
  intro hmem
  rcases List.mem_map.mp hmem with ⟨q, hq, hqs⟩
  have hq1 : q ∈ rest := (List.mem_filter.mp ((List.mem_filter.mp hq).1)).1
  exact h (hqs ▸ List.mem_map.mpr ⟨q, hq1, rfl⟩)

theorem syncCycle_count :
    ∀ (projects : List Project) (p : Project),
      (projects.map Project.slug).Nodup → p ∈ projects →
      (runSyncCycle projects).count p.slug =
        if hasDrive p && checkForChanges p then 1 else 0 := by
  intro projects
  induction projects with
  | nil => intro p _ hp; cases hp
  | cons q rest ih =>
    intro p hnd hp
    rw [List.map_cons, List.nodup_cons] at hnd
    unfold runSyncCycle at ih ⊢
    rcases List.mem_cons.mp hp with rfl | hp'
    · by_cases hd : hasDrive p = true
      · rw [List.filter_cons_of_pos hd]
        by_cases hc : checkForChanges p = true
        · rw [List.filter_cons_of_pos hc, List.map_cons, List.count_cons,
            slug_count_filtered_zero rest p.slug hnd.1, hd, hc]
          simp
        · rw [List.filter_cons_of_neg (by simp [hc]),
            slug_count_filtered_zero rest p.slug hnd.1, hd]
          simp [hc]
      · rw [List.filter_cons_of_neg (by simp [hd]),
          slug_count_filtered_zero rest p.slug hnd.1]
        simp [hd]
    · have hne : q.slug ≠ p.slug := by
        intro he
        exact hnd.1 (he ▸ List.mem_map.mpr ⟨p, hp', rfl⟩)
      by_cases hd : hasDrive q = true
      · rw [List.filter_cons_of_pos hd]
        by_cases hc : checkForChanges q = true
        · rw [List.filter_cons_of_pos hc, List.map_cons, List.count_cons,
            ih p hnd.2 hp']
          simp [hne]
        · rw [List.filter_cons_of_neg (by simp [hc]), ih p hnd.2 hp']
      · rw [List.filter_cons_of_neg (by simp [hd]), ih p hnd.2 hp']

/-- C4: on a watcher tick, a project with a truthy Drive reference gets
exactly one sync invocation when some raw file is strictly newer than its
recorded `updatedAt` and zero otherwise; in particular a project with no
raw directory, or none whose files are newer, triggers no invocation. -/
theorem watcher_sync_iff_newer :
    ∀ (projects : List Project), (projects.map Project.slug).Nodup →
      ∀ p ∈ projects, hasDrive p = true →
        ((runSyncCycle projects).count p.slug =
          if checkForChanges p then 1 else 0) ∧
        (checkForChanges p = true ↔
          ∃ files, p.rawDir = some files ∧
            ∃ f ∈ files, f.mtimeMs > p.updatedAt) := by
  intro projects hnd p hp hd
  constructor
  · rw [syncCycle_count projects p hnd hp, hd]
    simp
  · unfold checkForChanges
    cases hr : p.rawDir with
    | none => simp
    | some files => simp [List.any_eq_true]

/-- C4 witness: in the concrete two-project watcher state, the project with
a strictly newer raw file is synced exactly once on the tick. -/
theorem watcher_sync_iff_newer_witness :
    ((runSyncCycle demoProjects).count demoChanged.slug =
      if checkForChanges demoChanged then 1 else 0) ∧
    (checkForChanges demoChanged = true ↔
      ∃ files, demoChanged.rawDir = some files ∧
        ∃ f ∈ files, f.mtimeMs > demoChanged.updatedAt) :=
  watcher_sync_iff_newer demoProjects (by decide) demoChanged (by decide) (by decide)

end DocsOS
